import Mathlib

/-!
Verification of the geoipdb resolution-and-cache engine.

The Go sources are shallowly embedded:
  * cache.go        -> the cache structure and its operations (store,
    lookupByIP, lookupByASN, purgeASN, purgeAll) with time passed
    explicitly as an integer instant;
  * geoipdb.go      -> the Handler with its lookup pipeline
    (LibGeoipLookup, IpInfoLookup, CymruDnsLookup, getOverridenDescr,
    lookupAsnUncached, LookupAsn);
  * overrides (src/unnamed/part_001) -> OverridesLookup, OverridesAdd.

External collaborators (the libgeoip reader, the HTTP client, the DNS
client, the mgo collection) are oracle functions stored in the Handler.
Every function that can reach an external collaborator also returns the
list of external calls it performed, so that, e.g., a cache hit provably
performs no external call.

Go maps are embedded as functions into Option; a map mutation becomes a
pointwise update.  Go string helpers (TrimSpace, SplitN, the POSIX
regexps) are re-implemented on lists of characters.
-/

namespace Geoipdb

instance {ε α : Type} [DecidableEq ε] [DecidableEq α] :
    DecidableEq (Except ε α) := fun x y =>
  match x, y with
  | .error e, .error e' =>
    if h : e = e' then isTrue (by rw [h])
    else isFalse (fun hc => h (by injection hc))
  | .error _, .ok _ => isFalse (fun hc => by cases hc)
  | .ok _, .error _ => isFalse (fun hc => by cases hc)
  | .ok v, .ok v' =>
    if h : v = v' then isTrue (by rw [h])
    else isFalse (fun hc => h (by injection hc))

/-! ### Go string helpers -/

/-- Whitespace predicate used by the embedding of strings.TrimSpace
(ASCII fragment of unicode.IsSpace, which covers all payloads the code
meets). -/
def isSpaceChar (c : Char) : Bool :=
  c = ' ' || c = '\t' || c = '\n' || c = '\x0b' || c = '\x0c' || c = '\r'

/-- Embedding of strings.TrimSpace on a character list. -/
def trimSpaceList (l : List Char) : List Char :=
  ((l.dropWhile isSpaceChar).reverse.dropWhile isSpaceChar).reverse

/-- Embedding of strings.TrimSpace. -/
def trimSpace (s : String) : String :=
  String.mk (trimSpaceList s.data)

/-- Embedding of strings.SplitN(s, " ", 2): the part before the first
space, and (when a space exists) the part after it. -/
def splitFirstSpace (s : String) : String × Option String :=
  match (s.data.takeWhile (fun c => c ≠ ' '), s.data.dropWhile (fun c => c ≠ ' ')) with
  | (pre, []) => (String.mk pre, none)
  | (pre, _ :: rest) => (String.mk pre, some (String.mk rest))

/-- Embedding of the POSIX regexp check reASN.MatchString, with reASN
compiled from the pattern anchored AS followed by one or more digits. -/
def isASN (s : String) : Bool :=
  match s.data with
  | 'A' :: 'S' :: rest => !rest.isEmpty && rest.all Char.isDigit
  | _ => false

/-! ### cache.go -/

/-- Expiration time of a cache entry (time.Hour * 24, in nanoseconds). -/
def cacheTTL : Int := 24 * 60 * 60 * 1000000000

/-- Embedding of cacheEntry: the data kept cached for one IP. -/
structure cacheEntry where
  asn : String
  descr : String
  due : Int
deriving DecidableEq, Repr

/-- Embedding of the cache structure: the forward map from IP to entry
and the reverse map from ASN to the set of cached IPs under it.  Go maps
become functions into Option; a reverse bucket becomes a list of IPs
with set semantics (insertion is skipped when the member is present). -/
structure cache where
  ip : String → Option cacheEntry
  asn : String → Option (List String)

/-- Embedding of newCache: both maps empty. -/
def newCache : cache :=
  { ip := fun _ => none, asn := fun _ => none }

/-- Insertion into a reverse bucket, embedding the Go map-as-set
assignment of a key to the bucket map. -/
def bucketInsert (b : List String) (i : String) : List String :=
  if i ∈ b then b else i :: b

/-- The first two loops of cache.store: remove the given ip from every
reverse bucket, and drop every bucket made empty. -/
def cache.pruneIP (m : String → Option (List String)) (i : String) :
    String → Option (List String) := fun a =>
  match m a with
  | none => none
  | some b =>
    if (b.filter (fun x => x ≠ i)).length < 1 then none
    else some (b.filter (fun x => x ≠ i))

/-- Embedding of cache.store: purge the given ip from every reverse
bucket, prune buckets made empty, overwrite the forward entry with due
date now plus cacheTTL, and add the ip to the new ASN bucket, creating
it if absent. -/
def cache.store (c : cache) (i a d : String) (now : Int) : cache :=
  let pruned := cache.pruneIP c.asn i
  { ip := fun i' => if i' = i then some { asn := a, descr := d, due := now + cacheTTL } else c.ip i'
    asn := fun a' => if a' = a then some (bucketInsert ((pruned a).getD []) i) else pruned a' }

/-- Embedding of cache.lookupByIP: the entry data, whether it is
expired (time.Now().After(due), i.e. strictly later), and whether the
ip was found. -/
def cache.lookupByIP (c : cache) (i : String) (now : Int) :
    String × String × Bool × Bool :=
  match c.ip i with
  | none => ("", "", false, false)
  | some e => (e.asn, e.descr, decide (e.due < now), true)

/-- Embedding of cache.lookupByASN: the bucket of a given ASN, or an
empty list when the ASN is unknown. -/
def cache.lookupByASN (c : cache) (a : String) : List String :=
  (c.asn a).getD []

/-- Embedding of cache.purgeASN: drop every forward entry whose asn
matches, and drop the ASN reverse bucket. -/
def cache.purgeASN (c : cache) (a : String) : cache :=
  { ip := fun i =>
      match c.ip i with
      | none => none
      | some e => if e.asn = a then none else some e
    asn := fun a' => if a' = a then none else c.asn a' }

/-- Embedding of cache.purgeAll: both maps emptied. -/
def cache.purgeAll (_c : cache) : cache :=
  { ip := fun _ => none, asn := fun _ => none }

/-- The forward/reverse consistency invariant of the cache: an IP sits
in the reverse bucket of an ASN exactly when the forward map carries it
to an entry with that ASN. -/
def cacheConsistent (c : cache) : Prop :=
  ∀ a i, i ∈ c.lookupByASN a ↔ ∃ e, c.ip i = some e ∧ e.asn = a

/-- Cache states reachable from the empty cache by the mutating
operations. -/
inductive Reachable : cache → Prop
  | empty : Reachable newCache
  | store {c : cache} (i a d : String) (now : Int) :
      Reachable c → Reachable (c.store i a d now)
  | purgeASN {c : cache} (a : String) :
      Reachable c → Reachable (c.purgeASN a)
  | purgeAll {c : cache} :
      Reachable c → Reachable c.purgeAll

/-! ### The DNS answer filter (reDNSFilter, POSIX pattern dot-star pipe)

The Go code removes every leftmost-longest match of the POSIX pattern
dot-star followed by a literal pipe from the first string of the TXT
answer.  A match is a nonempty newline-free prefix ending in a pipe
(the Go regexp dot does not match a newline); leftmost-longest picks
the longest such prefix at each position. -/

/-- Whether the prefix of length k of l matches the pattern: nonempty,
within the bound, newline-free, and ending in a pipe. -/
def isPipeMatch (l : List Char) (k : Nat) : Bool :=
  decide (1 ≤ k) && decide (k ≤ l.length) &&
    (l.take k).all (fun c => c ≠ '\n') && decide ((l.take k).getLast? = some '|')

/-- The longest match length at the start of l, trying lengths from the
given bound downwards (leftmost-longest semantics). -/
def largestPipeMatch (l : List Char) : Nat → Option Nat
  | 0 => none
  | k + 1 => if isPipeMatch l (k + 1) then some (k + 1) else largestPipeMatch l k

/-- The length of the (longest) match of the pattern at the start of l,
if any. -/
def pipeMatchLen (l : List Char) : Option Nat :=
  largestPipeMatch l l.length

theorem largestPipeMatch_bounds {l : List Char} {n k : Nat}
    (h : largestPipeMatch l n = some k) : 1 ≤ k ∧ k ≤ l.length := by
  induction n with
  | zero => simp [largestPipeMatch] at h
  | succ m ih =>
    rw [largestPipeMatch] at h
    split at h
    · next hm =>
      cases h
      unfold isPipeMatch at hm
      simp only [Bool.and_eq_true, decide_eq_true_eq] at hm
      exact ⟨hm.1.1.1, hm.1.1.2⟩
    · exact ih h

/-- Embedding of ReplaceAllString with the empty replacement: at each
position, remove the longest match when one starts there, otherwise
keep the character and move on. -/
def replaceAll (l : List Char) : List Char :=
  match hm : pipeMatchLen l with
  | some k => replaceAll (l.drop k)
  | none =>
    match l with
    | [] => []
    | c :: rest => c :: replaceAll rest
termination_by l.length
decreasing_by
  · have hb := largestPipeMatch_bounds hm
    simp only [List.length_drop]
    omega
  · simp

/-- Embedding of reDNSFilter.ReplaceAllString(s, empty string). -/
def dnsFilter (s : String) : String :=
  String.mk (replaceAll s.data)

/-! ### External collaborators and the Handler -/

/-- Modelled from the spec: the Address Classifier of the iputils
package (absent from the sources; only its callers are present).  The
spec contract is Classify(text) into (normalizedAddress, isIPv4,
isLocal) or MalformedAddress; ParseIP answers a nil address exactly on
parse failure, and IsLocalIP flags a locally-scoped address. -/
inductive ClassifyRes where
  | malformed
  | ipv6 (isLocal : Bool)
  | ipv4 (isLocal : Bool)
deriving DecidableEq, Repr

/-- A call to an external collaborator, recorded so that theorems can
speak about which services an operation consulted. -/
inductive SrcCall where
  | geoip (ip : String)
  | ipinfo (ip : String)
  | cymru (asn : String)
  | findOverride (asn : String)
  | upsertOverride (asn descr : String)
deriving DecidableEq, Repr

/-- The error values LookupAsn and lookupAsnUncached can produce:
MalformedIPError, IPv6NotSupportedError, PrivateIPError, and the
unknown-ASN failure. -/
inductive LookupErr where
  | malformedIP
  | ipv6NotSupported
  | privateIP
  | unknownAsn (ip : String)
deriving DecidableEq, Repr

/-- Outcome of the mgo FindId call on the overrides collection. -/
inductive FindRes where
  | found (name : String)
  | notFound
  | err (msg : String)
deriving DecidableEq, Repr

/-- The error values the Overrides methods can produce:
OverridesNilCollectionError, OverridesAsnNotFoundError, and wrapped
driver errors. -/
inductive OvErr where
  | nilCollection
  | asnNotFound
  | other (msg : String)
deriving DecidableEq, Repr

/-- The external overrides collection: point lookup by id and upsert
by id, as the mgo driver exposes them. -/
structure MgoColl where
  findId : String → FindRes
  upsertId : String → String → Except String Unit

/-- One resource record of the DNS answer section; a TXT record carries
at least one string (the code reads the first). -/
inductive DnsAns where
  | txt (first : String) (rest : List String)
  | other
deriving DecidableEq, Repr

/-- Embedding of the Handler: the external collaborators as oracle
functions, the optional overrides collection, and the cache. -/
structure Handler where
  classify : String → ClassifyRes
  geoipGetName : String → String
  ipinfoGet : String → Except String String
  dnsExchange : String → Except String (List DnsAns)
  overrides : Option MgoColl
  cache : cache

/-- Embedding of Handler.LibGeoipLookup: reject non-IPv4 and local
addresses, then query the libgeoip database, trim, and split the name
at the first space into ASN and description. -/
def Handler.LibGeoipLookup (h : Handler) (i : String) :
    (String × String) × List SrcCall :=
  match h.classify i with
  | .ipv4 false =>
    let tmp := trimSpace (h.geoipGetName i)
    if tmp = "" then (("", ""), [.geoip i])
    else
      match splitFirstSpace tmp with
      | (first, none) => ((first, ""), [.geoip i])
      | (first, some rest) => ((first, rest), [.geoip i])
  | _ => (("", ""), [])

/-- Embedding of Handler.IpInfoLookup: reject invalid input, fetch the
org line over HTTP, trim it, reject an empty or non-ASN-shaped answer,
and split it at the first space into ASN and description. -/
def Handler.IpInfoLookup (h : Handler) (i : String) :
    Except String (String × String) × List SrcCall :=
  match h.classify i with
  | .malformed => (.error "malformed IP address", [])
  | .ipv6 _ => (.error "IPv6 not yet supported", [])
  | .ipv4 true => (.error "private IP address", [])
  | .ipv4 false =>
    match h.ipinfoGet i with
    | .error e => (.error ("failed to GET: " ++ e), [.ipinfo i])
    | .ok body =>
      let asnData := trimSpace body
      if asnData = "" then (.error "empty answer", [.ipinfo i])
      else
        match splitFirstSpace asnData with
        | (first, rest) =>
          if !isASN first then
            (.error ("ipinfo.io lookup failed: " ++ asnData), [.ipinfo i])
          else
            match rest with
            | none => (.ok (first, ""), [.ipinfo i])
            | some r => (.ok (first, r), [.ipinfo i])

/-- Embedding of cymruClient.lookup (Handler.CymruDnsLookup): reject an
empty ASN, query the DNS service, take the first TXT record of the
answer section, strip every match of reDNSFilter from its first string
and trim the remainder. -/
def Handler.CymruDnsLookup (h : Handler) (a : String) :
    Except String String × List SrcCall :=
  if a = "" then (.error "empty asn parameter", [])
  else
    match h.dnsExchange a with
    | .error e => (.error ("failed to query dns: " ++ e), [.cymru a])
    | .ok answers =>
      match answers.findSome? (fun ans =>
        match ans with
        | .txt first _ => some first
        | .other => none) with
      | some payload => (.ok (trimSpace (dnsFilter payload)), [.cymru a])
      | none => (.error "not yet implemented", [.cymru a])

/-- Embedding of Handler.OverridesLookup: nil collection, found,
not-found, or wrapped driver error. -/
def Handler.OverridesLookup (h : Handler) (a : String) :
    Except OvErr String × List SrcCall :=
  match h.overrides with
  | none => (.error .nilCollection, [])
  | some coll =>
    match coll.findId a with
    | .found name => (.ok name, [.findOverride a])
    | .notFound => (.error .asnNotFound, [.findOverride a])
    | .err m => (.error (.other m), [.findOverride a])

/-- Embedding of Handler.OverridesAdd: nil collection is rejected,
otherwise the record is upserted (no other validation is performed). -/
def Handler.OverridesAdd (h : Handler) (a d : String) :
    Except OvErr Unit × List SrcCall :=
  match h.overrides with
  | none => (.error .nilCollection, [])
  | some coll =>
    match coll.upsertId a d with
    | .ok _ => (.ok (), [.upsertOverride a d])
    | .error m => (.error (.other m), [.upsertOverride a d])

/-- Embedding of Handler.getOverridenDescr: the override description
when the lookup finds one, the fallback on any lookup error (the error
identity only selects whether a warning is logged). -/
def Handler.getOverridenDescr (h : Handler) (a fallback : String) :
    String × List SrcCall :=
  match h.OverridesLookup a with
  | (.ok d, log) => (d, log)
  | (.error _, log) => (fallback, log)

/-- The ASN selection of the tail of lookupAsnUncached: the libgeoip
ASN when nonempty, else a successful nonempty ipinfo ASN, else none. -/
def selBareAsn (asnGi : String)
    (ipinfoRes : Except String (String × String)) : Option String :=
  if asnGi ≠ "" then some asnGi
  else
    match ipinfoRes with
    | .ok p => if p.1 ≠ "" then some p.1 else none
    | .error _ => none

/-- Embedding of the tail of lookupAsnUncached (lines choosing the bare
ASN and querying cymru): prefer the libgeoip ASN, else a successful
nonempty ipinfo ASN, else fail with the unknown-ASN error; then ask
cymru for a description, falling back to the empty description when
cymru fails. -/
def Handler.uncachedTail (h : Handler) (i asnGi : String)
    (ipinfoRes : Except String (String × String)) :
    Except LookupErr (String × String) × List SrcCall :=
  match selBareAsn asnGi ipinfoRes with
  | none => (.error (.unknownAsn i), [])
  | some a =>
    match h.CymruDnsLookup a with
    | (.error _, logc) =>
      match h.getOverridenDescr a "" with
      | (d, logo) => (.ok (a, d), logc ++ logo)
    | (.ok descr, logc) =>
      match h.getOverridenDescr a descr with
      | (d, logo) => (.ok (a, d), logc ++ logo)

/-- Embedding of Handler.lookupAsnUncached: validate the address, then
try libgeoip for a complete pair, then ipinfo for a complete pair, then
fall back to a bare ASN with a cymru description; every successful
description goes through getOverridenDescr. -/
def Handler.lookupAsnUncached (h : Handler) (i : String) :
    Except LookupErr (String × String) × List SrcCall :=
  match h.classify i with
  | .malformed => (.error .malformedIP, [])
  | .ipv6 _ => (.error .ipv6NotSupported, [])
  | .ipv4 true => (.error .privateIP, [])
  | .ipv4 false =>
    match h.LibGeoipLookup i with
    | ((asnGi, giDescr), logg) =>
      if asnGi ≠ "" && giDescr ≠ "" then
        match h.getOverridenDescr asnGi giDescr with
        | (d, logo) => (.ok (asnGi, d), logg ++ logo)
      else
        match h.IpInfoLookup i with
        | (ipr, logi) =>
          match ipr with
          | .ok p =>
            if p.1 ≠ "" && p.2 ≠ "" then
              match h.getOverridenDescr p.1 p.2 with
              | (d, logo) => (.ok (p.1, d), logg ++ logi ++ logo)
            else
              match h.uncachedTail i asnGi ipr with
              | (r, logt) => (r, logg ++ logi ++ logt)
          | .error _ =>
            match h.uncachedTail i asnGi ipr with
            | (r, logt) => (r, logg ++ logi ++ logt)

/-- Embedding of Handler.LookupAsn: validate the address, probe the
cache and answer a fresh hit directly, otherwise run the uncached
lookup and store a successful result back into the cache.  The updated
cache is returned alongside the result. -/
def Handler.LookupAsn (h : Handler) (i : String) (now : Int) :
    Except LookupErr (String × String) × Geoipdb.cache × List SrcCall :=
  match h.classify i with
  | .malformed => (.error .malformedIP, h.cache, [])
  | .ipv6 _ => (.error .ipv6NotSupported, h.cache, [])
  | .ipv4 true => (.error .privateIP, h.cache, [])
  | .ipv4 false =>
    match h.cache.lookupByIP i now with
    | (asn, descr, expired, found) =>
      if found && !expired then (.ok (asn, descr), h.cache, [])
      else
        match h.lookupAsnUncached i with
        | (.ok (a, d), log) => (.ok (a, d), h.cache.store i a d now, log)
        | (.error e, log) => (.error e, h.cache, log)

/-! ### Cache lemmas -/

theorem mem_bucketInsert {b : List String} {i x : String} :
    x ∈ bucketInsert b i ↔ x ∈ b ∨ x = i := by
  unfold bucketInsert
  split
  · next h => exact ⟨Or.inl, fun hx => hx.elim id fun he => he ▸ h⟩
  · next h => simp [List.mem_cons, or_comm]

theorem mem_getD_iff {o : Option (List String)} {x : String} :
    x ∈ o.getD [] ↔ ∃ b, o = some b ∧ x ∈ b := by
  cases o <;> simp

theorem pruneIP_not_mem {m : String → Option (List String)} {i a : String}
    {b : List String} (h : cache.pruneIP m i a = some b) : i ∉ b := by
  unfold cache.pruneIP at h
  split at h
  · cases h
  · split at h
    · cases h
    · injection h with h'
      subst h'
      intro hmem
      have hx := List.mem_filter.mp hmem
      simp at hx

theorem pruneIP_ne_nil {m : String → Option (List String)} {i a : String}
    {b : List String} (h : cache.pruneIP m i a = some b) : b ≠ [] := by
  unfold cache.pruneIP at h
  split at h
  · cases h
  · split at h
    · cases h
    · next hf =>
      injection h with h'
      subst h'
      intro hnil
      rw [hnil] at hf
      simp at hf

theorem pruneIP_mem {m : String → Option (List String)} {i a x : String} :
    (∃ b, cache.pruneIP m i a = some b ∧ x ∈ b) ↔
      (∃ b, m a = some b ∧ x ∈ b ∧ x ≠ i) := by
  unfold cache.pruneIP
  cases hm : m a with
  | none => simp
  | some b0 =>
    by_cases hf : (b0.filter (fun y => y ≠ i)).length < 1
    · have hnil : b0.filter (fun y => y ≠ i) = [] :=
        List.eq_nil_of_length_eq_zero (by omega)
      simp only [hf, if_pos]
      constructor
      · rintro ⟨b', hb', _⟩; cases hb'
      · rintro ⟨b', hb', hx, hxi⟩
        injection hb' with hb'
        subst hb'
        have : x ∈ b0.filter (fun y => y ≠ i) :=
          List.mem_filter.mpr ⟨hx, by simp [hxi]⟩
        rw [hnil] at this
        cases this
    · simp only [hf, if_neg, if_false]
      constructor
      · rintro ⟨b', hb', hx⟩
        injection hb' with hb'
        subst hb'
        have hx' := List.mem_filter.mp hx
        exact ⟨b0, rfl, hx'.1, by simpa using hx'.2⟩
      · rintro ⟨b', hb', hx, hxi⟩
        injection hb' with hb'
        subst hb'
        exact ⟨_, rfl, List.mem_filter.mpr ⟨hx, by simp [hxi]⟩⟩

theorem newCache_consistent : cacheConsistent newCache := by
  intro a i
  simp [newCache, cache.lookupByASN]

theorem store_consistent {c : cache} (hc : cacheConsistent c)
    (i a d : String) (now : Int) : cacheConsistent (c.store i a d now) := by
  intro a' x
  have hc' := hc a' x
  unfold cacheConsistent cache.lookupByASN at hc'
  rw [mem_getD_iff] at hc'
  unfold cache.store cache.lookupByASN
  simp only
  rw [mem_getD_iff]
  by_cases hx : x = i
  · by_cases ha : a' = a
    · rw [if_pos ha, if_pos hx]
      constructor
      · intro _
        exact ⟨_, rfl, by rw [ha]⟩
      · intro _
        exact ⟨_, rfl, mem_bucketInsert.mpr (Or.inr hx)⟩
    · rw [if_neg ha, if_pos hx]
      constructor
      · intro hmem
        rcases pruneIP_mem.mp hmem with ⟨b, _, _, hxx⟩
        exact absurd hx hxx
      · rintro ⟨e, he, hasn⟩
        injection he with he
        subst he
        exact absurd hasn.symm ha
  · by_cases ha : a' = a
    · rw [if_pos ha, if_neg hx]
      constructor
      · rintro ⟨b', hb', hmem⟩
        injection hb' with hb'
        subst hb'
        rcases mem_bucketInsert.mp hmem with hmem | hmem
        · rcases pruneIP_mem.mp (mem_getD_iff.mp hmem) with ⟨b0, hb0, hxb0, _⟩
          exact hc'.mp ⟨b0, by rw [ha]; exact hb0, hxb0⟩
        · exact absurd hmem hx
      · intro he
        refine ⟨_, rfl, mem_bucketInsert.mpr (Or.inl ?_)⟩
        rcases hc'.mpr he with ⟨b, hb, hxb⟩
        exact mem_getD_iff.mpr (pruneIP_mem.mpr ⟨b, by rw [← ha]; exact hb, hxb, hx⟩)
    · rw [if_neg ha, if_neg hx]
      constructor
      · intro hmem
        rcases pruneIP_mem.mp hmem with ⟨b, hb, hxb, _⟩
        exact hc'.mp ⟨b, hb, hxb⟩
      · intro he
        rcases hc'.mpr he with ⟨b, hb, hxb⟩
        exact pruneIP_mem.mpr ⟨b, hb, hxb, hx⟩

theorem purgeASN_consistent {c : cache} (hc : cacheConsistent c)
    (a : String) : cacheConsistent (c.purgeASN a) := by
  intro a' x
  have hc' := hc a' x
  unfold cacheConsistent cache.lookupByASN at hc'
  rw [mem_getD_iff] at hc'
  unfold cache.purgeASN cache.lookupByASN
  simp only
  rw [mem_getD_iff]
  by_cases ha : a' = a
  · rw [if_pos ha]
    constructor
    · rintro ⟨b, hb, _⟩; cases hb
    · rintro ⟨e, he, hasn⟩
      split at he
      · cases he
      · rename_i e0 heq
        split at he
        · cases he
        · rename_i hea
          injection he with he
          subst he
          exact absurd (hasn.trans ha) hea
  · rw [if_neg ha]
    constructor
    · intro hmem
      rcases hc'.mp hmem with ⟨e, he, hasn⟩
      refine ⟨e, ?_, hasn⟩
      rw [he]
      show (if e.asn = a then none else some e) = some e
      rw [if_neg (by rw [hasn]; exact ha)]
    · rintro ⟨e, he, hasn⟩
      split at he
      · cases he
      · rename_i e0 heq
        split at he
        · cases he
        · injection he with he
          subst he
          exact hc'.mpr ⟨e0, heq, hasn⟩

theorem purgeAll_consistent (c : cache) : cacheConsistent c.purgeAll := by
  intro a i
  simp [cache.purgeAll, cache.lookupByASN]

/-- C1: for every cache state reachable from the empty cache by store,
purgeASN and purgeAll operations, an IP appears in the reverse index
under an ASN if and only if the forward index maps that IP to an entry
whose asn field is that ASN; every cache operation preserves this
invariant. -/
theorem c1_reachable_consistent (c : cache) (h : Reachable c) :
    cacheConsistent c := by
  induction h with
  | empty => exact newCache_consistent
  | store i a d now _ ih => exact store_consistent ih i a d now
  | purgeASN a _ ih => exact purgeASN_consistent ih a
  | purgeAll _ ih => exact purgeAll_consistent _

theorem c1_reachable_consistent_witness :
    cacheConsistent ((newCache.store "1.1.1.1" "AS1" "d" 0).purgeASN "AS1") :=
  c1_reachable_consistent _
    (Reachable.purgeASN "AS1" (Reachable.store "1.1.1.1" "AS1" "d" 0 Reachable.empty))

/-- C2: store removes the ip from every reverse bucket other than the
new ASN's, prunes buckets left empty (no listed ASN ever has zero
members after a store), overwrites the forward entry with the new data,
and inserts the ip into the new ASN's bucket, creating it if absent. -/
theorem c2_store_spec (c : cache) (i a d : String) (now : Int) :
    (c.store i a d now).ip i = some { asn := a, descr := d, due := now + cacheTTL }
    ∧ (∃ b, (c.store i a d now).asn a = some b ∧ i ∈ b)
    ∧ (∀ a' b, a' ≠ a → (c.store i a d now).asn a' = some b → i ∉ b)
    ∧ (∀ a' b, (c.store i a d now).asn a' = some b → b ≠ []) := by
  refine ⟨?_, ?_, ?_, ?_⟩
  · unfold cache.store
    simp
  · unfold cache.store
    simp only [if_pos rfl]
    exact ⟨_, rfl, mem_bucketInsert.mpr (Or.inr rfl)⟩
  · intro a' b ha hb
    unfold cache.store at hb
    simp only [if_neg ha] at hb
    exact pruneIP_not_mem hb
  · intro a' b hb
    unfold cache.store at hb
    simp only at hb
    by_cases ha : a' = a
    · rw [if_pos ha] at hb
      injection hb with hb
      subst hb
      intro hnil
      have : i ∈ bucketInsert ((cache.pruneIP c.asn i a).getD []) i :=
        mem_bucketInsert.mpr (Or.inr rfl)
      rw [hnil] at this
      cases this
    · rw [if_neg ha] at hb
      exact pruneIP_ne_nil hb

theorem c2_store_spec_witness :
    (((newCache.store "1.1.1.1" "AS1" "d" 0).store "2.2.2.2" "AS1" "d" 0).store
        "1.1.1.1" "AS2" "e" 5).ip "1.1.1.1" =
      some { asn := "AS2", descr := "e", due := 5 + cacheTTL }
    ∧ (∃ b, (((newCache.store "1.1.1.1" "AS1" "d" 0).store "2.2.2.2" "AS1" "d" 0).store
        "1.1.1.1" "AS2" "e" 5).asn "AS2" = some b ∧ "1.1.1.1" ∈ b)
    ∧ "1.1.1.1" ∉ (["2.2.2.2"] : List String)
    ∧ (["2.2.2.2"] : List String) ≠ [] := by
  have h := c2_store_spec ((newCache.store "1.1.1.1" "AS1" "d" 0).store "2.2.2.2" "AS1" "d" 0)
    "1.1.1.1" "AS2" "e" 5
  exact ⟨h.1, h.2.1,
    h.2.2.1 "AS1" ["2.2.2.2"] (by decide) (by decide),
    h.2.2.2 "AS1" ["2.2.2.2"] (by decide)⟩

/-- C6: lookupByIP answers found equal to false exactly when the IP is
absent from the forward index (it is absent initially, after purgeAll,
and after a purgeASN of its entry's ASN, and present after a store);
when the IP is present the entry is returned even if expired, with the
expired flag computed at read time by comparing the current time with
the stored due date. -/
theorem c6_lookupByIP_spec :
    (∀ (c : cache) (i : String) (now : Int) (e : cacheEntry), c.ip i = some e →
        c.lookupByIP i now = (e.asn, e.descr, decide (e.due < now), true))
    ∧ (∀ (c : cache) (i : String) (now : Int), c.ip i = none →
        c.lookupByIP i now = ("", "", false, false))
    ∧ (∀ (i : String) (now : Int), (newCache.lookupByIP i now).2.2.2 = false)
    ∧ (∀ (c : cache) (i a d : String) (t now : Int),
        ((c.store i a d t).lookupByIP i now).2.2.2 = true)
    ∧ (∀ (c : cache) (i : String) (now : Int),
        (c.purgeAll.lookupByIP i now).2.2.2 = false)
    ∧ (∀ (c : cache) (i : String) (now : Int) (e : cacheEntry), c.ip i = some e →
        ((c.purgeASN e.asn).lookupByIP i now).2.2.2 = false) := by
  refine ⟨?_, ?_, ?_, ?_, ?_, ?_⟩
  · intro c i now e he
    unfold cache.lookupByIP
    rw [he]
  · intro c i now he
    unfold cache.lookupByIP
    rw [he]
  · intro i now
    simp [newCache, cache.lookupByIP]
  · intro c i a d t now
    unfold cache.lookupByIP cache.store
    simp
  · intro c i now
    simp [cache.purgeAll, cache.lookupByIP]
  · intro c i now e he
    simp [cache.lookupByIP, cache.purgeASN, he]

theorem c6_lookupByIP_spec_witness :
    (newCache.store "1.1.1.1" "AS1" "d" 0).ip "1.1.1.1" =
      some { asn := "AS1", descr := "d", due := 0 + cacheTTL }
    ∧ (newCache.store "1.1.1.1" "AS1" "d" 0).lookupByIP "1.1.1.1" (cacheTTL + 1) =
      ("AS1", "d", decide ((0 + cacheTTL : Int) < cacheTTL + 1), true)
    ∧ newCache.lookupByIP "1.1.1.1" 0 = ("", "", false, false) := by
  refine ⟨by decide, ?_, ?_⟩
  · exact c6_lookupByIP_spec.1 (newCache.store "1.1.1.1" "AS1" "d" 0) "1.1.1.1"
      (cacheTTL + 1) { asn := "AS1", descr := "d", due := 0 + cacheTTL } (by decide)
  · exact c6_lookupByIP_spec.2.1 newCache "1.1.1.1" 0 rfl

/-! ### Resolver lemmas -/

theorem getOverridenDescr_of_found {h : Handler} {a nm : String}
    (hnm : (h.OverridesLookup a).1 = .ok nm) (fb : String) :
    (h.getOverridenDescr a fb).1 = nm := by
  unfold Handler.getOverridenDescr
  rcases hov : h.OverridesLookup a with ⟨res, log⟩
  rw [hov] at hnm
  simp only at hnm
  subst hnm
  simp

theorem getOverridenDescr_of_error {h : Handler} {a : String} {e : OvErr}
    (he : (h.OverridesLookup a).1 = .error e) (fb : String) :
    (h.getOverridenDescr a fb).1 = fb := by
  unfold Handler.getOverridenDescr
  rcases hov : h.OverridesLookup a with ⟨res, log⟩
  rw [hov] at he
  simp only at he
  subst he
  simp

theorem uncachedTail_ok_descr {h : Handler} {i asnGi : String}
    {ipr : Except String (String × String)}
    {r : Except LookupErr (String × String)} {log : List SrcCall}
    (ht : h.uncachedTail i asnGi ipr = (r, log)) {a d : String}
    (hr : r = Except.ok (a, d)) :
    ∃ fb, (h.getOverridenDescr a fb).1 = d := by
  subst hr
  unfold Handler.uncachedTail at ht
  split at ht
  · simp at ht
  · rename_i a' hsel
    split at ht
    · rename_i e0 logc hcy
      split at ht
      rename_i d0 logo hov
      rw [Prod.mk.injEq] at ht
      obtain ⟨ht1, -⟩ := ht
      injection ht1 with ht1
      rw [Prod.mk.injEq] at ht1
      obtain ⟨hta, htd⟩ := ht1
      subst hta
      exact ⟨"", by rw [hov, htd]⟩
    · rename_i descr logc hcy
      split at ht
      rename_i d0 logo hov
      rw [Prod.mk.injEq] at ht
      obtain ⟨ht1, -⟩ := ht
      injection ht1 with ht1
      rw [Prod.mk.injEq] at ht1
      obtain ⟨hta, htd⟩ := ht1
      subst hta
      exact ⟨descr, by rw [hov, htd]⟩

theorem lookupAsnUncached_ok_descr {h : Handler} {i a d : String}
    (hok : (h.lookupAsnUncached i).1 = Except.ok (a, d)) :
    ∃ fb, (h.getOverridenDescr a fb).1 = d := by
  unfold Handler.lookupAsnUncached at hok
  split at hok
  · simp at hok
  · simp at hok
  · simp at hok
  · split at hok
    rename_i asnGi giDescr logg hgi
    split at hok
    · split at hok
      rename_i d0 logo hov
      have hok' : Except.ok (asnGi, d0) = Except.ok (a, d) := hok
      injection hok' with hok'
      rw [Prod.mk.injEq] at hok'
      obtain ⟨hta, htd⟩ := hok'
      subst hta
      exact ⟨giDescr, by rw [hov, htd]⟩
    · split at hok
      rename_i ipr logi hipr
      split at hok
      · rename_i p
        split at hok
        · split at hok
          rename_i d0 logo hov
          have hok' : Except.ok (p.1, d0) = Except.ok (a, d) := hok
          injection hok' with hok'
          rw [Prod.mk.injEq] at hok'
          obtain ⟨hta, htd⟩ := hok'
          rw [hta] at hov
          exact ⟨p.2, by rw [hov, htd]⟩
        · split at hok
          rename_i rt logt htail
          have hok' : rt = Except.ok (a, d) := hok
          exact uncachedTail_ok_descr htail hok'
      · split at hok
        rename_i rt logt htail
        have hok' : rt = Except.ok (a, d) := hok
        exact uncachedTail_ok_descr htail hok'

/-- C5: for every IP whose cache entry is found and not expired (and
which passes address validation, as the resolver checks first),
LookupAsn answers the cached pair at once, leaves the cache unchanged,
and invokes no source client. -/
theorem c5_cache_hit (h : Handler) (i : String) (now : Int) (a d : String)
    (hcl : h.classify i = .ipv4 false)
    (hhit : h.cache.lookupByIP i now = (a, d, false, true)) :
    h.LookupAsn i now = (.ok (a, d), h.cache, []) := by
  simp [Handler.LookupAsn, hcl, hhit]

def collCustom : MgoColl :=
  { findId := fun a => if a = "AS15169" then .found "Custom Name" else .notFound
    upsertId := fun _ _ => .ok () }

def hFresh : Handler :=
  { classify := fun _ => .ipv4 false
    geoipGetName := fun _ => "AS15169 Google Inc."
    ipinfoGet := fun _ => .error "unreachable"
    dnsExchange := fun _ => .error "timeout"
    overrides := none
    cache := newCache.store "8.8.8.8" "AS15169" "Google Inc." 0 }

theorem c5_cache_hit_witness :
    hFresh.LookupAsn "8.8.8.8" 5 = (.ok ("AS15169", "Google Inc."), hFresh.cache, []) :=
  c5_cache_hit hFresh "8.8.8.8" 5 "AS15169" "Google Inc." rfl (by decide)

/-- C7: for every call of LookupAsn, a failing result leaves the cache
unchanged, and when the cache has no fresh entry and the uncached
resolution succeeds, the returned pair is stored into the cache keyed
by the original IP. -/
theorem c7_cache_update (h : Handler) (i : String) (now : Int) :
    (∀ e, (h.LookupAsn i now).1 = .error e → (h.LookupAsn i now).2.1 = h.cache)
    ∧ (∀ a d, h.classify i = .ipv4 false →
        ((h.cache.lookupByIP i now).2.2.2 = false ∨ (h.cache.lookupByIP i now).2.2.1 = true) →
        (h.lookupAsnUncached i).1 = .ok (a, d) →
        (h.LookupAsn i now).1 = .ok (a, d) ∧
          (h.LookupAsn i now).2.1 = h.cache.store i a d now) := by
  cases hcl : h.classify i with
  | malformed =>
    refine ⟨fun e _ => ?_, fun a d hcl' _ _ => ?_⟩
    · simp [Handler.LookupAsn, hcl]
    · simp at hcl'
  | ipv6 l =>
    refine ⟨fun e _ => ?_, fun a d hcl' _ _ => ?_⟩
    · simp [Handler.LookupAsn, hcl]
    · simp at hcl'
  | ipv4 loc =>
    cases loc with
    | true =>
      refine ⟨fun e _ => ?_, fun a d hcl' _ _ => ?_⟩
      · simp [Handler.LookupAsn, hcl]
      · simp at hcl'
    | false =>
      rcases hlk : h.cache.lookupByIP i now with ⟨a0, d0, ex, fd⟩
      rcases hun : h.lookupAsnUncached i with ⟨r, log⟩
      constructor
      · intro e herr
        simp only [Handler.LookupAsn, hcl, hlk] at herr ⊢
        by_cases hcond : (fd && !ex) = true
        · rw [if_pos hcond] at herr
          simp at herr
        · rw [if_neg hcond] at herr ⊢
          rw [hun] at herr ⊢
          rcases r with e' | p
          · simp
          · rcases p with ⟨pa, pd⟩
            simp at herr
      · intro a d _ hmiss hok
        have hr : r = Except.ok (a, d) := hok
        subst hr
        have hcond : ¬ ((fd && !ex) = true) := by
          rcases hmiss with hm | hm
          · have hm' : fd = false := hm
            simp [hm']
          · have hm' : ex = true := hm
            simp [hm']
        simp only [Handler.LookupAsn, hcl, hlk]
        rw [if_neg hcond, hun]
        exact ⟨rfl, rfl⟩

theorem c7_cache_update_witness :
    (hFresh.LookupAsn "8.8.8.8" (2 * cacheTTL)).1 = .ok ("AS15169", "Google Inc.")
    ∧ (hFresh.LookupAsn "8.8.8.8" (2 * cacheTTL)).2.1 =
        hFresh.cache.store "8.8.8.8" "AS15169" "Google Inc." (2 * cacheTTL) :=
  (c7_cache_update hFresh "8.8.8.8" (2 * cacheTTL)).2 "AS15169" "Google Inc."
    rfl (by right; decide) (by decide)

/-- C4: an override record found for the resolved ASN replaces the
computed description regardless of the source that produced it, and
every other override-lookup outcome (nil collection, not found, or any
driver error) leaves the computed description unchanged and never fails
the resolution. -/
theorem c4_override_precedence (h : Handler) :
    (∀ a fb nm, (h.OverridesLookup a).1 = .ok nm → (h.getOverridenDescr a fb).1 = nm)
    ∧ (∀ a fb e, (h.OverridesLookup a).1 = .error e → (h.getOverridenDescr a fb).1 = fb)
    ∧ (∀ i a d nm, (h.lookupAsnUncached i).1 = .ok (a, d) →
        (h.OverridesLookup a).1 = .ok nm → d = nm) := by
  refine ⟨fun a fb nm hnm => getOverridenDescr_of_found hnm fb,
    fun a fb e he => getOverridenDescr_of_error he fb,
    fun i a d nm hok hnm => ?_⟩
  rcases lookupAsnUncached_ok_descr hok with ⟨fb, hfb⟩
  rw [← hfb, getOverridenDescr_of_found hnm fb]

def hOv : Handler :=
  { classify := fun _ => .ipv4 false
    geoipGetName := fun _ => "AS15169 Google Inc."
    ipinfoGet := fun _ => .error "unreachable"
    dnsExchange := fun _ => .error "timeout"
    overrides := some collCustom
    cache := newCache }

theorem c4_override_precedence_witness :
    (hOv.getOverridenDescr "AS15169" "Google Inc.").1 = "Custom Name"
    ∧ (hOv.getOverridenDescr "AS7018" "AT&T Services").1 = "AT&T Services"
    ∧ "Custom Name" = "Custom Name" :=
  ⟨(c4_override_precedence hOv).1 "AS15169" "Google Inc." "Custom Name" (by decide),
    (c4_override_precedence hOv).2.1 "AS7018" "AT&T Services" .asnNotFound (by decide),
    (c4_override_precedence hOv).2.2 "8.8.8.8" "AS15169" "Custom Name" "Custom Name"
      (by decide) (by decide)⟩

/-! ### Uncached resolution precedence (C3) -/

/-- The description the resolver keeps after asking cymru about a bare
ASN: the cymru answer on success, the empty string on failure. -/
def cymruDescrOf (h : Handler) (a : String) : String :=
  match (h.CymruDnsLookup a).1 with
  | .ok d => d
  | .error _ => ""

theorem cymru_logs_call {h : Handler} {a : String} (ha : ¬ a = "") :
    (h.CymruDnsLookup a).2 = [SrcCall.cymru a] := by
  unfold Handler.CymruDnsLookup
  rw [if_neg ha]
  rcases h.dnsExchange a with e | answers
  · rfl
  · simp only
    split <;> rfl

theorem selBareAsn_ne_empty {ga : String}
    {ipr : Except String (String × String)} {a : String}
    (hsel : selBareAsn ga ipr = some a) : ¬ a = "" := by
  unfold selBareAsn at hsel
  split at hsel
  · rename_i hga
    injection hsel with h'
    subst h'
    exact hga
  · split at hsel
    · split at hsel
      · rename_i hp
        injection hsel with h'
        subst h'
        exact hp
      · cases hsel
    · cases hsel

theorem uncachedTail_result {h : Handler} (i : String) {ga : String}
    {ipr : Except String (String × String)} {a : String}
    (hsel : selBareAsn ga ipr = some a) :
    h.uncachedTail i ga ipr =
      (.ok (a, (h.getOverridenDescr a (cymruDescrOf h a)).1),
        SrcCall.cymru a :: (h.getOverridenDescr a (cymruDescrOf h a)).2) := by
  have ha := selBareAsn_ne_empty hsel
  unfold Handler.uncachedTail
  rw [hsel]
  have hlogc := cymru_logs_call (h := h) ha
  rcases hcy : h.CymruDnsLookup a with ⟨cr, logc⟩
  rw [hcy] at hlogc
  simp only at hlogc
  subst hlogc
  cases cr with
  | error e =>
    have hd : cymruDescrOf h a = "" := by
      unfold cymruDescrOf
      rw [hcy]
    simp [hcy, hd]
  | ok d =>
    have hd : cymruDescrOf h a = d := by
      unfold cymruDescrOf
      rw [hcy]
    simp [hcy, hd]

theorem uncachedTail_none {h : Handler} (i : String) {ga : String}
    {ipr : Except String (String × String)}
    (hsel : selBareAsn ga ipr = none) :
    h.uncachedTail i ga ipr = (.error (.unknownAsn i), []) := by
  unfold Handler.uncachedTail
  rw [hsel]

theorem uncached_complete_gi (h : Handler) (i : String)
    (hcl : h.classify i = .ipv4 false) {ga gd : String} {logg : List SrcCall}
    (hgi : h.LibGeoipLookup i = ((ga, gd), logg))
    (h1 : ¬ ga = "") (h2 : ¬ gd = "") :
    (h.lookupAsnUncached i).1 = .ok (ga, (h.getOverridenDescr ga gd).1) := by
  simp [Handler.lookupAsnUncached, hcl, hgi, h1, h2]

theorem uncached_complete_ip (h : Handler) (i : String)
    (hcl : h.classify i = .ipv4 false) {ga gd : String} {logg : List SrcCall}
    (hgi : h.LibGeoipLookup i = ((ga, gd), logg))
    {p : String × String} {logi : List SrcCall}
    (hipr : h.IpInfoLookup i = (.ok p, logi))
    (hinc : ga = "" ∨ gd = "") (hp1 : ¬ p.1 = "") (hp2 : ¬ p.2 = "") :
    (h.lookupAsnUncached i).1 = .ok (p.1, (h.getOverridenDescr p.1 p.2).1) := by
  rcases hinc with hg | hg <;>
    simp [Handler.lookupAsnUncached, hcl, hgi, hipr, hg, hp1, hp2]

theorem uncached_via_tail (h : Handler) (i : String)
    (hcl : h.classify i = .ipv4 false) {ga gd : String} {logg : List SrcCall}
    (hgi : h.LibGeoipLookup i = ((ga, gd), logg))
    {ipr : Except String (String × String)} {logi : List SrcCall}
    (hipr : h.IpInfoLookup i = (ipr, logi))
    (hnc : ga = "" ∨ gd = "")
    (hnp : ∀ p, ipr = .ok p → p.1 = "" ∨ p.2 = "") :
    (h.lookupAsnUncached i).1 = (h.uncachedTail i ga ipr).1
    ∧ (h.lookupAsnUncached i).2 = logg ++ logi ++ (h.uncachedTail i ga ipr).2 := by
  rcases hnc with hg | hg
  · cases ipr with
    | error e0 =>
      constructor <;> simp [Handler.lookupAsnUncached, hcl, hgi, hipr, hg]
    | ok p =>
      rcases hnp p rfl with hp | hp
      · constructor <;> simp [Handler.lookupAsnUncached, hcl, hgi, hipr, hg, hp]
      · constructor <;> simp [Handler.lookupAsnUncached, hcl, hgi, hipr, hg, hp]
  · cases ipr with
    | error e0 =>
      constructor <;> simp [Handler.lookupAsnUncached, hcl, hgi, hipr, hg]
    | ok p =>
      rcases hnp p rfl with hp | hp
      · constructor <;> simp [Handler.lookupAsnUncached, hcl, hgi, hipr, hg, hp]
      · constructor <;> simp [Handler.lookupAsnUncached, hcl, hgi, hipr, hg, hp]

theorem lookupAsnUncached_fail (h : Handler) (i : String)
    (hcl : h.classify i = .ipv4 false) {ga gd : String} {logg : List SrcCall}
    (hgi : h.LibGeoipLookup i = ((ga, gd), logg))
    {ipr : Except String (String × String)} {logi : List SrcCall}
    (hipr : h.IpInfoLookup i = (ipr, logi)) :
    (∀ e, (h.lookupAsnUncached i).1 = .error e →
      ga = "" ∧ (∀ p, ipr = .ok p → p.1 = "") ∧ e = .unknownAsn i)
    ∧ ((ga = "" ∧ ∀ p, ipr = .ok p → p.1 = "") →
        (h.lookupAsnUncached i).1 = .error (.unknownAsn i)) := by
  constructor
  · intro e he
    by_cases hga : ga = ""
    · cases ipr with
      | error e0 =>
        have hnp : ∀ p, (Except.error e0 : Except String (String × String)) = .ok p →
            p.1 = "" ∨ p.2 = "" := by intro p hp; cases hp
        have hvt := uncached_via_tail h i hcl hgi hipr (Or.inl hga) hnp
        have hsel : selBareAsn ga (Except.error e0) = none := by
          unfold selBareAsn
          rw [hga, if_neg (by simp)]
        rw [hvt.1, uncachedTail_none i hsel] at he
        have he2 : Except.error (LookupErr.unknownAsn i) = Except.error e := he
        injection he2 with he2
        exact ⟨hga, fun p hp => by simp at hp, he2.symm⟩
      | ok p =>
        by_cases hp1 : p.1 = ""
        · have hnp : ∀ q, (Except.ok p : Except String (String × String)) = .ok q →
              q.1 = "" ∨ q.2 = "" := by
            intro q hq
            injection hq with hq
            subst hq
            exact Or.inl hp1
          have hvt := uncached_via_tail h i hcl hgi hipr (Or.inl hga) hnp
          have hsel : selBareAsn ga (Except.ok p) = none := by
            unfold selBareAsn
            rw [hga, if_neg (by simp)]
            show (if p.1 ≠ "" then some p.1 else none) = none
            rw [if_neg (by simp [hp1])]
          rw [hvt.1, uncachedTail_none i hsel] at he
          have he2 : Except.error (LookupErr.unknownAsn i) = Except.error e := he
          injection he2 with he2
          refine ⟨hga, fun q hq => ?_, he2.symm⟩
          injection hq with hq
          subst hq
          exact hp1
        · exfalso
          by_cases hp2 : p.2 = ""
          · have hnp : ∀ q, (Except.ok p : Except String (String × String)) = .ok q →
                q.1 = "" ∨ q.2 = "" := by
              intro q hq
              injection hq with hq
              subst hq
              exact Or.inr hp2
            have hvt := uncached_via_tail h i hcl hgi hipr (Or.inl hga) hnp
            have hsel : selBareAsn ga (Except.ok p) = some p.1 := by
              unfold selBareAsn
              rw [hga, if_neg (by simp)]
              show (if p.1 ≠ "" then some p.1 else none) = some p.1
              rw [if_pos hp1]
            rw [hvt.1, uncachedTail_result i hsel] at he
            simp at he
          · rw [uncached_complete_ip h i hcl hgi hipr (Or.inl hga) hp1 hp2] at he
            simp at he
    · exfalso
      by_cases hgd : gd = ""
      · cases ipr with
        | error e0 =>
          have hnp : ∀ q, (Except.error e0 : Except String (String × String)) = .ok q →
              q.1 = "" ∨ q.2 = "" := by intro q hq; cases hq
          have hvt := uncached_via_tail h i hcl hgi hipr (Or.inr hgd) hnp
          have hsel : selBareAsn ga (Except.error e0) = some ga := by
            unfold selBareAsn
            rw [if_pos hga]
          rw [hvt.1, uncachedTail_result i hsel] at he
          simp at he
        | ok p =>
          by_cases hpc : ¬ p.1 = "" ∧ ¬ p.2 = ""
          · rw [uncached_complete_ip h i hcl hgi hipr (Or.inr hgd) hpc.1 hpc.2] at he
            simp at he
          · have hp' : p.1 = "" ∨ p.2 = "" := by
              rcases not_and_or.mp hpc with hx | hx
              · exact Or.inl (not_not.mp hx)
              · exact Or.inr (not_not.mp hx)
            have hnp : ∀ q, (Except.ok p : Except String (String × String)) = .ok q →
                q.1 = "" ∨ q.2 = "" := by
              intro q hq
              injection hq with hq
              subst hq
              exact hp'
            have hvt := uncached_via_tail h i hcl hgi hipr (Or.inr hgd) hnp
            have hsel : selBareAsn ga (Except.ok p) = some ga := by
              unfold selBareAsn
              rw [if_pos hga]
            rw [hvt.1, uncachedTail_result i hsel] at he
            simp at he
      · rw [uncached_complete_gi h i hcl hgi hga hgd] at he
        simp at he
  · rintro ⟨hga, hnp1⟩
    have hnp : ∀ p, ipr = .ok p → p.1 = "" ∨ p.2 = "" :=
      fun p hp => Or.inl (hnp1 p hp)
    have hvt := uncached_via_tail h i hcl hgi hipr (Or.inl hga) hnp
    have hsel : selBareAsn ga ipr = none := by
      unfold selBareAsn
      rw [hga, if_neg (by simp)]
      cases ipr with
      | error e0 => rfl
      | ok p =>
        show (if p.1 ≠ "" then some p.1 else none) = none
        rw [if_neg (by simp [hnp1 p rfl])]
    rw [hvt.1, uncachedTail_none i hsel]

/-- C3: for every IP passing classification, the uncached resolution
follows the fixed precedence: a complete nonempty pair from the local
GeoIP database is authoritative; otherwise a complete pair from the
remote HTTP client is authoritative; otherwise a bare ASN is kept, the
database ASN preferred over the remote one, and the DNS-description
client is queried for the description; the resolution fails, with the
unknown-ASN error, exactly when no source yields any ASN. -/
theorem c3_source_precedence (h : Handler) (i : String)
    (hcl : h.classify i = .ipv4 false) :
    ((h.LibGeoipLookup i).1.1 ≠ "" → (h.LibGeoipLookup i).1.2 ≠ "" →
      (h.lookupAsnUncached i).1 =
        .ok ((h.LibGeoipLookup i).1.1,
          (h.getOverridenDescr (h.LibGeoipLookup i).1.1 (h.LibGeoipLookup i).1.2).1))
    ∧ (∀ p, ((h.LibGeoipLookup i).1.1 = "" ∨ (h.LibGeoipLookup i).1.2 = "") →
        (h.IpInfoLookup i).1 = .ok p → p.1 ≠ "" → p.2 ≠ "" →
        (h.lookupAsnUncached i).1 = .ok (p.1, (h.getOverridenDescr p.1 p.2).1))
    ∧ ((h.LibGeoipLookup i).1.2 = "" →
        (∀ p, (h.IpInfoLookup i).1 = .ok p → p.1 = "" ∨ p.2 = "") →
        (h.LibGeoipLookup i).1.1 ≠ "" →
        (h.lookupAsnUncached i).1 =
          .ok ((h.LibGeoipLookup i).1.1,
            (h.getOverridenDescr (h.LibGeoipLookup i).1.1
              (cymruDescrOf h (h.LibGeoipLookup i).1.1)).1)
        ∧ SrcCall.cymru ((h.LibGeoipLookup i).1.1) ∈ (h.lookupAsnUncached i).2)
    ∧ (∀ p, (h.LibGeoipLookup i).1.1 = "" → (h.IpInfoLookup i).1 = .ok p →
        p.1 ≠ "" → p.2 = "" →
        (h.lookupAsnUncached i).1 =
          .ok (p.1, (h.getOverridenDescr p.1 (cymruDescrOf h p.1)).1)
        ∧ SrcCall.cymru p.1 ∈ (h.lookupAsnUncached i).2)
    ∧ ((∃ e, (h.lookupAsnUncached i).1 = .error e) ↔
        ((h.LibGeoipLookup i).1.1 = "" ∧
          ∀ p, (h.IpInfoLookup i).1 = .ok p → p.1 = ""))
    ∧ (∀ e, (h.lookupAsnUncached i).1 = .error e → e = .unknownAsn i) := by
  rcases hgi : h.LibGeoipLookup i with ⟨⟨ga, gd⟩, logg⟩
  rcases hipr : h.IpInfoLookup i with ⟨ipr, logi⟩
  refine ⟨?_, ?_, ?_, ?_, ?_, ?_⟩
  · intro h1 h2
    exact uncached_complete_gi h i hcl hgi h1 h2
  · intro p hinc hip hp1 hp2
    have hip' : ipr = .ok p := hip
    subst hip'
    exact uncached_complete_ip h i hcl hgi hipr hinc hp1 hp2
  · intro hgd hnc hga
    have hgd' : gd = "" := hgd
    have hga' : ¬ ga = "" := hga
    have hnp : ∀ p, ipr = .ok p → p.1 = "" ∨ p.2 = "" := by
      intro p hp
      exact hnc p (by rw [hp])
    have hvt := uncached_via_tail h i hcl hgi hipr (Or.inr hgd') hnp
    have hsel : selBareAsn ga ipr = some ga := by
      unfold selBareAsn
      rw [if_pos hga']
    have htail := uncachedTail_result (h := h) i hsel
    constructor
    · rw [hvt.1, htail]
    · rw [hvt.2, htail]
      simp
  · intro p hga hip hp1 hp2
    have hga' : ga = "" := hga
    have hip' : ipr = .ok p := hip
    subst hip'
    have hp1' : ¬ p.1 = "" := hp1
    have hp2' : p.2 = "" := hp2
    have hnp : ∀ q, (Except.ok p : Except String (String × String)) = .ok q →
        q.1 = "" ∨ q.2 = "" := by
      intro q hq
      injection hq with hq
      subst hq
      exact Or.inr hp2'
    have hvt := uncached_via_tail h i hcl hgi hipr (Or.inl hga') hnp
    have hsel : selBareAsn ga (Except.ok p) = some p.1 := by
      unfold selBareAsn
      rw [hga', if_neg (by simp)]
      show (if p.1 ≠ "" then some p.1 else none) = some p.1
      rw [if_pos hp1']
    have htail := uncachedTail_result (h := h) i hsel
    constructor
    · rw [hvt.1, htail]
    · rw [hvt.2, htail]
      simp
  · have hfail := lookupAsnUncached_fail h i hcl hgi hipr
    constructor
    · rintro ⟨e, he⟩
      obtain ⟨hga, hnp1, -⟩ := hfail.1 e he
      exact ⟨hga, fun p hp => hnp1 p hp⟩
    · rintro ⟨hga, hnp1⟩
      exact ⟨_, hfail.2 ⟨hga, fun p hp => hnp1 p hp⟩⟩
  · intro e he
    exact ((lookupAsnUncached_fail h i hcl hgi hipr).1 e he).2.2

theorem c3_source_precedence_witness :
    (hFresh.lookupAsnUncached "8.8.8.8").1 =
      .ok ("AS15169", (hFresh.getOverridenDescr "AS15169" "Google Inc.").1) :=
  (c3_source_precedence hFresh "8.8.8.8" rfl).1 (by decide) (by decide)

/-! ### Characterizing the DNS filter (C8) -/

/-- The suffix of a line after its last pipe character (the whole line
when no pipe occurs). -/
def afterLastPipe (l : List Char) : List Char :=
  (l.reverse.takeWhile (fun c => c ≠ '|')).reverse

/-- The extraction the spec sentence describes: discard only the
content preceding the first pipe, and the pipe itself, then trim. -/
def firstPipeExtract (s : String) : String :=
  String.mk (trimSpaceList ((s.data.dropWhile (fun c => c ≠ '|')).drop 1))

theorem mem_of_getLast?_eq {l : List Char} {a : Char}
    (h : l.getLast? = some a) : a ∈ l := by
  rcases List.mem_getLast?_eq_getLast (l := l) (x := a) (by rw [h]; rfl) with ⟨hne, hx⟩
  rw [hx]
  exact List.getLast_mem hne

theorem isPipeMatch_false_of_no_pipe {l : List Char} (h : '|' ∉ l)
    (k : Nat) : isPipeMatch l k = false := by
  by_contra hc
  rw [Bool.not_eq_false] at hc
  unfold isPipeMatch at hc
  simp only [Bool.and_eq_true, decide_eq_true_eq] at hc
  exact h (List.take_subset k l (mem_of_getLast?_eq hc.2))

theorem isPipeMatch_le {l : List Char} {j : Nat}
    (hj : isPipeMatch l j = true) : 1 ≤ j ∧ j ≤ l.length := by
  unfold isPipeMatch at hj
  simp only [Bool.and_eq_true, decide_eq_true_eq] at hj
  exact ⟨hj.1.1.1, hj.1.1.2⟩

theorem largestPipeMatch_none {l : List Char} (h : '|' ∉ l) :
    ∀ n, largestPipeMatch l n = none := by
  intro n
  induction n with
  | zero => rfl
  | succ k ih =>
    unfold largestPipeMatch
    rw [isPipeMatch_false_of_no_pipe h (k + 1)]
    simpa using ih

theorem replaceAll_no_pipe {l : List Char} (h : '|' ∉ l) :
    replaceAll l = l := by
  induction l with
  | nil =>
    unfold replaceAll
    rfl
  | cons c rest ih =>
    unfold replaceAll
    split
    · rename_i k hk
      have hnone : pipeMatchLen (c :: rest) = none := largestPipeMatch_none h _
      rw [hnone] at hk
      cases hk
    · show c :: replaceAll rest = c :: rest
      rw [ih (fun hm => h (List.mem_cons_of_mem c hm))]

theorem dropWhile_pipe {r : List Char} (hp : '|' ∈ r) :
    ∃ s, r.dropWhile (fun c => c ≠ '|') = '|' :: s := by
  induction r with
  | nil => cases hp
  | cons c t ih =>
    by_cases hc : c = '|'
    · subst hc
      exact ⟨t, by simp [List.dropWhile]⟩
    · have ht : '|' ∈ t := by
        rcases List.mem_cons.mp hp with he | ht
        · exact absurd he.symm hc
        · exact ht
      rcases ih ht with ⟨s, hs⟩
      refine ⟨s, ?_⟩
      rw [List.dropWhile_cons, if_pos (by simp [hc])]
      exact hs

theorem pipe_decomposition {l : List Char} (hp : '|' ∈ l) :
    ∃ t, l = t ++ '|' :: afterLastPipe l ∧ '|' ∉ afterLastPipe l := by
  have hrev : '|' ∈ l.reverse := List.mem_reverse.mpr hp
  rcases dropWhile_pipe hrev with ⟨s, hs⟩
  refine ⟨s.reverse, ?_, ?_⟩
  · calc l = l.reverse.reverse := (List.reverse_reverse l).symm
      _ = (l.reverse.takeWhile (fun c => c ≠ '|') ++ '|' :: s).reverse := by
            rw [← hs, List.takeWhile_append_dropWhile]
      _ = ('|' :: s).reverse ++ (l.reverse.takeWhile (fun c => c ≠ '|')).reverse := by
            rw [List.reverse_append]
      _ = (s.reverse ++ ['|']) ++ afterLastPipe l := by
            rw [List.reverse_cons]
            rfl
      _ = s.reverse ++ '|' :: afterLastPipe l := by
            simp
  · intro hmem
    have hmem' := List.mem_reverse.mp hmem
    have := List.mem_takeWhile_imp hmem'
    simp at this

theorem largestPipeMatch_eq_some {l : List Char} {j : Nat}
    (hj : isPipeMatch l j = true)
    (hmax : ∀ k, j < k → isPipeMatch l k = false) :
    ∀ n, j ≤ n → largestPipeMatch l n = some j := by
  intro n hn
  induction n with
  | zero =>
    have hj0 : j = 0 := by omega
    subst hj0
    unfold isPipeMatch at hj
    simp at hj
  | succ m ih =>
    unfold largestPipeMatch
    by_cases he : j = m + 1
    · subst he
      simp [hj]
    · rw [hmax (m + 1) (by omega)]
      simp only [Bool.false_eq_true, if_false]
      exact ih (by omega)

theorem pipeMatchLen_of_decomp {t u : List Char}
    (hn : '\n' ∉ t ++ '|' :: u) (hu : '|' ∉ u) :
    pipeMatchLen (t ++ '|' :: u) = some (t.length + 1) := by
  have hlen : (t ++ '|' :: u).length = t.length + 1 + u.length := by
    simp [List.length_append]
    omega
  have hj : isPipeMatch (t ++ '|' :: u) (t.length + 1) = true := by
    have htake : (t ++ '|' :: u).take (t.length + 1) = t ++ ['|'] := by
      rw [List.take_append_eq_append_take, List.take_of_length_le (by omega)]
      congr 1
      have h1 : t.length + 1 - t.length = 1 := by omega
      rw [h1]
      rfl
    unfold isPipeMatch
    rw [htake]
    simp only [Bool.and_eq_true, decide_eq_true_eq]
    refine ⟨⟨⟨by omega, by omega⟩, ?_⟩, List.getLast?_concat t⟩
    rw [List.all_eq_true]
    intro x hx
    rcases List.mem_append.mp hx with hx | hx
    · have hxl : x ∈ t ++ '|' :: u := List.mem_append_left _ hx
      simp only [decide_eq_true_eq]
      exact fun he => hn (he ▸ hxl)
    · simp only [List.mem_singleton] at hx
      subst hx
      decide
  have hmax : ∀ k, t.length + 1 < k → isPipeMatch (t ++ '|' :: u) k = false := by
    intro k hk
    by_cases hkl : k ≤ (t ++ '|' :: u).length
    · have hm1 : k - t.length = (k - t.length - 1) + 1 := by omega
      have htm : u.take (k - t.length - 1) ≠ [] := by
        intro hnil
        have hl := congrArg List.length hnil
        rw [List.length_take] at hl
        rcases Nat.min_eq_zero_iff.mp hl with h0 | h0 <;> omega
      have htake2 : (t ++ '|' :: u).take k = t ++ '|' :: u.take (k - t.length - 1) := by
        rw [List.take_append_eq_append_take, List.take_of_length_le (by omega), hm1]
        rfl
      have hne : ((t ++ '|' :: u).take k).getLast? ≠ some '|' := by
        rw [htake2]
        rw [List.getLast?_append_of_ne_nil _ (by simp)]
        rw [show ('|' :: u.take (k - t.length - 1)) =
              ['|'] ++ u.take (k - t.length - 1) from rfl]
        rw [List.getLast?_append_of_ne_nil _ htm]
        intro hcon
        exact hu (List.take_subset _ _ (mem_of_getLast?_eq hcon))
      unfold isPipeMatch
      simp [hne]
    · unfold isPipeMatch
      simp
      omega
  exact largestPipeMatch_eq_some hj hmax _ (by omega)

theorem replaceAll_single_line {l : List Char} (hn : '\n' ∉ l)
    (hp : '|' ∈ l) : replaceAll l = afterLastPipe l := by
  rcases pipe_decomposition hp with ⟨t, hdec, hu⟩
  have hml : pipeMatchLen l = some (t.length + 1) := by
    conv =>
      left
      rw [hdec]
    exact pipeMatchLen_of_decomp (by rw [← hdec]; exact hn) hu
  unfold replaceAll
  split
  · rename_i k hk
    rw [hml] at hk
    injection hk with hk
    subst hk
    have hdrop : l.drop (t.length + 1) = afterLastPipe l := by
      conv =>
        left
        rw [hdec]
      rw [List.drop_append_eq_append_drop, List.drop_eq_nil_of_le (by omega)]
      have h1 : t.length + 1 - t.length = 1 := by omega
      rw [h1]
      rfl
    rw [hdrop]
    exact replaceAll_no_pipe hu
  · rename_i hk
    rw [hml] at hk
    cases hk

def cymPayload : String :=
  "15169 | US | arin | 2000-03-30 | GOOGLE - Google Inc., US"

def hCym : Handler :=
  { classify := fun _ => .ipv4 false
    geoipGetName := fun _ => ""
    ipinfoGet := fun _ => .error "unreachable"
    dnsExchange := fun _ => .ok [.txt cymPayload []]
    overrides := none
    cache := newCache }

/-- C8 as stated is false: the POSIX pattern dot-star pipe is greedy
(leftmost-longest), so on a pipe-delimited TXT payload the code keeps
only the text after the LAST pipe, not the text remaining after the
first pipe that the claim describes. -/
theorem c8_dns_extract_counterexample :
    (hCym.CymruDnsLookup "AS15169").1 = .ok "GOOGLE - Google Inc., US"
    ∧ firstPipeExtract cymPayload =
        "US | arin | 2000-03-30 | GOOGLE - Google Inc., US"
    ∧ ("GOOGLE - Google Inc., US" : String) ≠
        "US | arin | 2000-03-30 | GOOGLE - Google Inc., US" := by
  refine ⟨?_, by decide, by decide⟩
  unfold Handler.CymruDnsLookup
  rw [if_neg (by decide)]
  rw [show hCym.dnsExchange "AS15169" = .ok [.txt cymPayload []] from rfl]
  simp only [List.findSome?]
  rw [show dnsFilter cymPayload =
        String.mk (replaceAll cymPayload.data) from rfl]
  rw [replaceAll_single_line (by decide) (by decide)]
  decide

/-- C8 amended: for every single-line TXT answer containing a pipe,
the organization name extracted is the trimmed text remaining after
discarding the content up to and including the last pipe character of
the payload. -/
theorem c8_dns_extract_amended (h : Handler) (a s : String)
    (rest : List String) (ha : ¬ a = "")
    (hdns : h.dnsExchange a = .ok [.txt s rest])
    (hline : '\n' ∉ s.data) (hpipe : '|' ∈ s.data) :
    (h.CymruDnsLookup a).1 =
      .ok (String.mk (trimSpaceList (afterLastPipe s.data))) := by
  unfold Handler.CymruDnsLookup
  rw [if_neg ha, hdns]
  simp only [List.findSome?]
  rw [show dnsFilter s = String.mk (replaceAll s.data) from rfl]
  rw [replaceAll_single_line hline hpipe]
  rfl

theorem c8_dns_extract_amended_witness :
    (hCym.CymruDnsLookup "AS15169").1 =
      .ok (String.mk (trimSpaceList (afterLastPipe cymPayload.data))) :=
  c8_dns_extract_amended hCym "AS15169" cymPayload [] (by decide) rfl
    (by decide) (by decide)

/-! ### Overrides validation (C9) -/

/-- C9 as stated is false: OverridesAdd performs no ASN-format check;
on an identifier that does not match the AS-digits pattern it still
succeeds and upserts the record instead of rejecting it. -/
theorem c9_overridesAdd_counterexample :
    isASN "garbage" = false
    ∧ hOv.OverridesAdd "garbage" "desc" =
        (.ok (), [.upsertOverride "garbage" "desc"]) := by
  exact ⟨by decide, rfl⟩

/-- C9 amended: OverridesAdd validates nothing about the ASN format:
for every identifier, matching the AS-digits pattern or not, a nil
collection is answered with the nil-collection error and no store call,
and a present collection receives an upsert of exactly that record,
whose outcome is propagated. -/
theorem c9_overridesAdd_amended (h : Handler) (a d : String) :
    (h.overrides = none → h.OverridesAdd a d = (.error .nilCollection, []))
    ∧ (∀ coll, h.overrides = some coll → coll.upsertId a d = .ok () →
        h.OverridesAdd a d = (.ok (), [.upsertOverride a d]))
    ∧ (∀ coll m, h.overrides = some coll → coll.upsertId a d = .error m →
        h.OverridesAdd a d = (.error (.other m), [.upsertOverride a d])) := by
  refine ⟨?_, ?_, ?_⟩
  · intro hn
    unfold Handler.OverridesAdd
    rw [hn]
  · intro coll hc hu
    unfold Handler.OverridesAdd
    rw [hc]
    simp [hu]
  · intro coll m hc hu
    unfold Handler.OverridesAdd
    rw [hc]
    simp [hu]

theorem c9_overridesAdd_amended_witness :
    hFresh.OverridesAdd "AS1" "d" = (.error .nilCollection, [])
    ∧ hOv.OverridesAdd "garbage" "other desc" =
        (.ok (), [.upsertOverride "garbage" "other desc"]) :=
  ⟨(c9_overridesAdd_amended hFresh "AS1" "d").1 rfl,
    (c9_overridesAdd_amended hOv "garbage" "other desc").2.1 collCustom rfl rfl⟩

/-! ### LibGeoipLookup input filtering (C10) -/

/-- C10: for every input string that the classifier reports malformed,
IPv6, or locally-scoped IPv4, LibGeoipLookup answers the empty pair
without consulting the GeoIP database and without any error channel,
indistinguishable from the pair a not-found database answer yields. -/
theorem c10_libgeoip_invalid (h : Handler) (i : String) :
    ((h.classify i = .malformed ∨ (∃ l, h.classify i = .ipv6 l) ∨
        h.classify i = .ipv4 true) →
      h.LibGeoipLookup i = (("", ""), []))
    ∧ (h.classify i = .ipv4 false → trimSpace (h.geoipGetName i) = "" →
      (h.LibGeoipLookup i).1 = ("", "")) := by
  constructor
  · intro hc
    unfold Handler.LibGeoipLookup
    rcases hc with hc | ⟨l, hc⟩ | hc <;> rw [hc]
  · intro hc hname
    unfold Handler.LibGeoipLookup
    rw [hc]
    simp [hname]

def hBad : Handler :=
  { classify := fun _ => .malformed
    geoipGetName := fun _ => "AS1 X"
    ipinfoGet := fun _ => .error "unreachable"
    dnsExchange := fun _ => .error "timeout"
    overrides := none
    cache := newCache }

theorem c10_libgeoip_invalid_witness :
    hBad.LibGeoipLookup "not-an-ip" = (("", ""), []) :=
  (c10_libgeoip_invalid hBad "not-an-ip").1 (Or.inl rfl)

end Geoipdb
